import Mathlib

/-!
Verification development for the ai-trend-sentinel repository.

The file shallowly embeds the code units that the specification talks
about and proves the specification's sentences about them:

* the `fetch-binance-whales` edge function (authentication, pair
  enumeration, the per-pair trade fetch loop, the whale filter and the
  `whale_trades` upserts);
* `calculateSentiments` from `CoinSentimentView`;
* `handleCreateTradeView`, `handleNext` and `handleBuy` from
  `TradingSuggestions`;
* `processData` from `TopCoinsCard`.

JavaScript numbers that the code obtains via `parseFloat` and combines
with `*`, `/` and comparisons are modelled as rationals (`Rat`).
Database and HTTP effects are modelled as explicit event traces so that
ordering claims can be stated.

The file is organised as definitions first, then theorems.
-/

namespace TrendSentinel

/-! ## Definitions: the `fetch-binance-whales` edge function

Embeds `supabase/functions/fetch-binance-whales/index.ts`.  The
function's interaction with the outside world (request header, token
authentication, the `api_keys` lookup, the exchange-info response and
the per-symbol trade fetches) is an explicit environment; the
function's observable behaviour is the ordered list of fetch/upsert
events it issues and the HTTP response it returns. -/

namespace Whales

/-- One entry of `exchangeData.symbols` in the exchange-info response. -/
structure SymbolInfo where
  symbol : String
  quoteAsset : String
  status : String
  deriving DecidableEq

/-- One trade returned by `GET /api/v3/trades`, with its `price` and
`qty` fields already `parseFloat`ed. -/
structure BTrade where
  price : Rat
  qty : Rat
  isBuyerMaker : Bool
  time : Nat
  deriving DecidableEq

/-- `WHALE_THRESHOLD = 100000` ($100k USD threshold for whale trades). -/
def WHALE_THRESHOLD : Rat := 100000

/-- The row shape upserted into the `whale_trades` table.  The
`timestamp` column keeps the trade's millisecond time; the ISO
rendering applied by `new Date(trade.time).toISOString()` is injective
on times so it is not modelled separately. -/
structure WhaleTradeRow where
  user_id : String
  symbol : String
  amount : Rat
  price : Rat
  trade_type : String
  timestamp : Nat
  deriving DecidableEq, BEq

/-- Outcome of the `fetch` of `/api/v3/trades` for one symbol: a thrown
error, a non-ok HTTP response (with its body text), or an ok response
carrying the parsed trade list. -/
inductive FetchOutcome where
  | thrown
  | notOk (body : String)
  | ok (trades : List BTrade)
  deriving DecidableEq

/-- The environment of one invocation: the request's `Authorization`
header, the result of `auth.getUser` (the authenticated user's id when
it succeeds), the `api_keys` row (key and secret when present), the
symbols listed by the exchange-info endpoint, and the outcome of the
trade fetch for each symbol. -/
structure Env where
  authHeader : Option String
  authUser : Option String
  apiKeys : Option (String × String)
  symbols : List SymbolInfo
  fetchTrades : String → FetchOutcome

/-- An observable outbound effect: a trade fetch for a symbol, or a
`whale_trades` upsert of a row. -/
inductive Event where
  | fetch (symbol : String)
  | upsert (row : WhaleTradeRow)
  deriving DecidableEq, BEq

/-- The HTTP response of the function: the success body
`{ success: true, whales }` or the catch-all error response with its
status and message. -/
inductive HttpResult where
  | success (whales : List BTrade)
  | failure (status : Nat) (message : String)
  deriving DecidableEq

/-- What one invocation did: the events it issued, in order, and the
response it returned. -/
structure RunOutput where
  events : List Event
  response : HttpResult
  deriving DecidableEq

/-- The whale filter: `parseFloat(trade.price) * parseFloat(trade.qty)
>= WHALE_THRESHOLD`. -/
def whaleFilter (t : BTrade) : Bool :=
  WHALE_THRESHOLD ≤ t.price * t.qty

/-- The row built for one qualifying trade. -/
def mkWhaleRow (uid sym : String) (t : BTrade) : WhaleTradeRow :=
  { user_id := uid
    symbol := sym
    amount := t.price * t.qty
    price := t.price
    trade_type := if t.isBuyerMaker then "buy" else "sell"
    timestamp := t.time }

/-- The `for (const symbol of usdtPairs.slice(0, 10))` loop: for each
symbol in turn, fetch its trades; on a thrown error or a non-ok
response log and continue; otherwise filter for whale trades, upsert
each of them, and append them to `whales`.  Returns the event trace and
the accumulated `whales` list. -/
def pairLoop (env : Env) (uid : String) : List String → List Event × List BTrade
  | [] => ([], [])
  | sym :: rest =>
    let here : List Event × List BTrade :=
      match env.fetchTrades sym with
      | FetchOutcome.thrown => ([Event.fetch sym], [])
      | FetchOutcome.notOk _ => ([Event.fetch sym], [])
      | FetchOutcome.ok tradeData =>
        let whaleTrades := tradeData.filter whaleFilter
        (Event.fetch sym :: whaleTrades.map (fun t => Event.upsert (mkWhaleRow uid sym t)),
          whaleTrades)
    let later := pairLoop env uid rest
    (here.1 ++ later.1, here.2 ++ later.2)

/-- `exchangeData.symbols.filter(s => s.quoteAsset === 'USDT' && s.status
=== 'TRADING').map(s => s.symbol)`. -/
def usdtPairs (symbols : List SymbolInfo) : List String :=
  (symbols.filter (fun s => s.quoteAsset == "USDT" && s.status == "TRADING")).map
    (fun s => s.symbol)

/-- The request handler passed to `serve`: authenticate, load the user's
API keys, enumerate the USDT trading pairs, run the pair loop over the
first 10 of them and answer with the collected whales; any error thrown
on the way is caught and answered with a status-500 response carrying
the error's message. -/
def fetchBinanceWhales (env : Env) : RunOutput :=
  match env.authHeader with
  | none => { events := [], response := HttpResult.failure 500 "No authorization header" }
  | some _ =>
    match env.authUser with
    | none => { events := [], response := HttpResult.failure 500 "Unauthorized" }
    | some uid =>
      match env.apiKeys with
      | none => { events := [], response := HttpResult.failure 500 "API keys not found" }
      | some _ =>
        let pairs := (usdtPairs env.symbols).take 10
        let result := pairLoop env uid pairs
        { events := result.1, response := HttpResult.success result.2 }

/-- The upsert rows contained in an event trace, in order. -/
def upsertsOf (events : List Event) : List WhaleTradeRow :=
  events.filterMap fun e =>
    match e with
    | Event.upsert r => some r
    | Event.fetch _ => none

/-- The fetched symbols contained in an event trace, in order. -/
def fetchesOf (events : List Event) : List String :=
  events.filterMap fun e =>
    match e with
    | Event.fetch s => some s
    | Event.upsert _ => none

/-- The rows an invocation upserts, in order. -/
def upsertedRows (env : Env) : List WhaleTradeRow :=
  upsertsOf (fetchBinanceWhales env).events

/-- Specification-side view: the upserts contributed by one pair. -/
def pairUpserts (env : Env) (uid sym : String) : List WhaleTradeRow :=
  match env.fetchTrades sym with
  | FetchOutcome.ok ts => (ts.filter whaleFilter).map (mkWhaleRow uid sym)
  | _ => []

/-- Specification-side view: the whales collected from one pair. -/
def pairWhales (env : Env) (sym : String) : List BTrade :=
  match env.fetchTrades sym with
  | FetchOutcome.ok ts => ts.filter whaleFilter
  | _ => []

/-- Specification-side view: the events contributed by one pair — its
fetch, followed by its upserts. -/
def pairEvents (env : Env) (uid sym : String) : List Event :=
  Event.fetch sym :: (pairUpserts env uid sym).map Event.upsert

/-- Concatenating the issued upsert lists of two invocations over the
same environment: the trace of back-to-back invocations over identical
exchange data. -/
def twoInvocationUpserts (env : Env) : List WhaleTradeRow :=
  upsertedRows env ++ upsertedRows env

/-- The number of qualifying (whale) trades across the processed pairs,
counting every occurrence separately. -/
def qualifyingTradeCount (env : Env) : Nat :=
  (((usdtPairs env.symbols).take 10).map fun sym => (pairWhales env sym).length).sum

/-- A concrete qualifying trade: notional value 50000 · 3 = 150000. -/
def tradeA : BTrade := { price := 50000, qty := 3, isBuyerMaker := true, time := 1700000000000 }

/-- A concrete non-qualifying trade: notional value 10 · 5 = 50. -/
def tradeB : BTrade := { price := 10, qty := 5, isBuyerMaker := false, time := 1700000000001 }

/-- A concrete environment where authentication succeeds, `BTCUSDT`
returns two trades, `ETHUSDT` answers with a non-ok response, and every
other fetch throws. -/
def envEx : Env :=
  { authHeader := some "Bearer token"
    authUser := some "user-1"
    apiKeys := some ("key", "secret")
    symbols :=
      [ { symbol := "BTCUSDT", quoteAsset := "USDT", status := "TRADING" }
      , { symbol := "ETHUSDT", quoteAsset := "USDT", status := "TRADING" }
      , { symbol := "XRPUSDT", quoteAsset := "USDT", status := "BREAK" }
      , { symbol := "ETHBTC", quoteAsset := "BTC", status := "TRADING" } ]
    fetchTrades := fun sym =>
      if sym == "BTCUSDT" then FetchOutcome.ok [tradeA, tradeB]
      else if sym == "ETHUSDT" then FetchOutcome.notOk "418"
      else FetchOutcome.thrown }

/-- A concrete environment whose request has no `Authorization` header. -/
def envNoAuth : Env :=
  { authHeader := none
    authUser := none
    apiKeys := none
    symbols := (envEx).symbols
    fetchTrades := (envEx).fetchTrades }

end Whales

/-! ## Definitions: sentiment data and `calculateSentiments`

Embeds the `SentimentData` shape used by `CoinSentimentView` and
`TopCoinsCard` and the `calculateSentiments` function of
`CoinSentimentView`.  A dataset maps video ids to videos; only the
videos themselves matter to the counted quantities, so the dataset is
carried as the list of its videos in enumeration order. -/

namespace Sentiment

/-- One comment with its sentiment indicator. -/
structure Comment where
  indicator : String
  deriving DecidableEq

/-- One video: its list of comments. -/
structure Video where
  comments : List Comment
  deriving DecidableEq

/-- The sentiment payload for one coin; `videos` is absent when the API
response lacks the field. -/
structure SentimentData where
  videos : Option (List Video)
  deriving DecidableEq

/-- The result shape of `calculateSentiments`. -/
structure SentimentCounts where
  buy : Nat
  sell : Nat
  others : Nat
  total : Nat
  deriving DecidableEq

/-- One step of the comment loop: `if (comment.indicator === 'buy')
buy++; else if (comment.indicator === 'sell') sell++; else others++`.
The accumulator is `(buy, sell, others)`. -/
def tallyStep (acc : Nat × Nat × Nat) (c : Comment) : Nat × Nat × Nat :=
  if c.indicator == "buy" then (acc.1 + 1, acc.2.1, acc.2.2)
  else if c.indicator == "sell" then (acc.1, acc.2.1 + 1, acc.2.2)
  else (acc.1, acc.2.1, acc.2.2 + 1)

/-- `calculateSentiments`: zero counts when the dataset is null or has
no `videos`; otherwise the nested `forEach` tallies every comment of
every video and `total = buy + sell + others`. -/
def calculateSentiments (sentimentData : Option SentimentData) : SentimentCounts :=
  match sentimentData with
  | none => { buy := 0, sell := 0, others := 0, total := 0 }
  | some d =>
    match d.videos with
    | none => { buy := 0, sell := 0, others := 0, total := 0 }
    | some videos =>
      let acc := videos.foldl (fun a v => v.comments.foldl tallyStep a) (0, 0, 0)
      { buy := acc.1, sell := acc.2.1, others := acc.2.2, total := acc.1 + acc.2.1 + acc.2.2 }

/-- Specification-side view: all comments of a dataset, in order. -/
def allComments (sentimentData : Option SentimentData) : List Comment :=
  match sentimentData with
  | none => []
  | some d =>
    match d.videos with
    | none => []
    | some videos => videos.flatMap fun v => v.comments

/-- A comment counts as a buy. -/
def isBuy (c : Comment) : Bool := c.indicator == "buy"

/-- A comment counts as a sell. -/
def isSell (c : Comment) : Bool := c.indicator == "sell"

/-- A comment counts as `others`: neither a buy nor a sell. -/
def isOther (c : Comment) : Bool := !(isBuy c) && !(isSell c)

/-- A concrete dataset: two videos with a mix of indicators. -/
def sentimentEx : SentimentData :=
  { videos := some
      [ { comments := [⟨"buy"⟩, ⟨"sell"⟩, ⟨"hold"⟩, ⟨"buy"⟩] }
      , { comments := [⟨"sell"⟩, ⟨"moon"⟩] } ] }

end Sentiment

/-! ## Definitions: `TradingSuggestions`

Embeds `handleCreateTradeView`, `handleNext` and `handleBuy` from
`src/components/trading/TradingSuggestions.tsx`.  Database writes are
modelled by explicit row lists; the component state is the
`tradeView` state plus the coin list delivered by `useCoinData`. -/

namespace Trading

/-- A `trade_views` row as the component inserts it. -/
structure TradeViewRow where
  user_id : String
  name : String
  status : String
  deriving DecidableEq

/-- The user-visible outcome of `handleCreateTradeView`. -/
inductive CreateViewOutcome where
  | notSignedIn
  | duplicateName
  | created (row : TradeViewRow)
  deriving DecidableEq

/-- `handleCreateTradeView`: require a session; look for an existing
`trade_views` row with this user's id and the requested name and stop
with an error toast when one exists; otherwise insert exactly one row
with the name, the user's id and status `'active'`.  Returns the new
table contents and the outcome. -/
def handleCreateTradeView (session : Option String) (db : List TradeViewRow)
    (name : String) : List TradeViewRow × CreateViewOutcome :=
  match session with
  | none => (db, CreateViewOutcome.notSignedIn)
  | some uid =>
    match db.find? (fun r => r.user_id == uid && r.name == name) with
    | some _ => (db, CreateViewOutcome.duplicateName)
    | none =>
      let row : TradeViewRow := { user_id := uid, name := name, status := "active" }
      (db ++ [row], CreateViewOutcome.created row)

/-- A coin suggestion as delivered by `useCoinData`. -/
structure Coin where
  symbol : String
  strategy : String
  indicators : String
  deriving DecidableEq

/-- A `coin_indicators` row as the component inserts it. -/
structure CoinIndicatorRow where
  trade_view_id : Nat
  coin_symbol : String
  sentiment : String
  indicators : String
  user_response : Option String
  deriving DecidableEq

/-- The component state relevant to the suggestion stepper: the created
trade view's id, the current index, the coin list, the
`coin_indicators` rows inserted so far and the number of
"Analysis Complete" notices shown. -/
structure SuggestionsState where
  tradeViewId : Option Nat
  currentIndex : Nat
  coins : List Coin
  insertedRows : List CoinIndicatorRow
  completionNotices : Nat
  deriving DecidableEq

/-- `coins[tradeView.currentIndex]`. -/
def currentCoin (s : SuggestionsState) : Option Coin :=
  s.coins[s.currentIndex]?

/-- The `coin_indicators` row built for a coin, with an optional
`user_response`. -/
def indicatorRow (id : Nat) (coin : Coin) (response : Option String) : CoinIndicatorRow :=
  { trade_view_id := id
    coin_symbol := coin.symbol
    sentiment := coin.strategy
    indicators := coin.indicators
    user_response := response }

/-- `handleNext`: return unless a trade view id and a current coin
exist; insert a `coin_indicators` row without `user_response`; advance
the index when `currentIndex < coins.length - 1`, otherwise show the
"Analysis Complete" notice and leave the index unchanged. -/
def handleNext (s : SuggestionsState) : SuggestionsState :=
  match s.tradeViewId, currentCoin s with
  | some id, some coin =>
    let s1 := { s with insertedRows := s.insertedRows ++ [indicatorRow id coin none] }
    if s.currentIndex < s.coins.length - 1 then
      { s1 with currentIndex := s.currentIndex + 1 }
    else
      { s1 with completionNotices := s.completionNotices + 1 }
  | _, _ => s

/-- `handleBuy`: return unless a trade view id and a current coin exist;
insert a `coin_indicators` row with `user_response: 'buy'`, then invoke
`handleNext`. -/
def handleBuy (s : SuggestionsState) : SuggestionsState :=
  match s.tradeViewId, currentCoin s with
  | some id, some coin =>
    handleNext { s with insertedRows := s.insertedRows ++ [indicatorRow id coin (some "buy")] }
  | _, _ => s

/-- A user interaction with the suggestion card. -/
inductive UserAction where
  | next
  | buy
  deriving DecidableEq

/-- Run one user action. -/
def actionStep (s : SuggestionsState) (a : UserAction) : SuggestionsState :=
  match a with
  | UserAction.next => handleNext s
  | UserAction.buy => handleBuy s

/-- Run a sequence of user actions. -/
def runActions (s : SuggestionsState) (acts : List UserAction) : SuggestionsState :=
  acts.foldl actionStep s

/-- A concrete starting state after analysis started on two coins. -/
def stateEx : SuggestionsState :=
  { tradeViewId := some 7
    currentIndex := 0
    coins :=
      [ { symbol := "BTCUSDT", strategy := "bullish", indicators := "rsi:55" }
      , { symbol := "ETHUSDT", strategy := "bearish", indicators := "rsi:40" } ]
    insertedRows := []
    completionNotices := 0 }

/-- A concrete `trade_views` table with one existing row. -/
def dbEx : List TradeViewRow :=
  [{ user_id := "user-1", name := "march", status := "active" }]

end Trading

/-! ## Definitions: `TopCoinsCard.processData`

Embeds `processData` from
`src/components/coins/dashboard/TopCoinsCard.tsx`.  The input object
mapping coin names to sentiment payloads is carried as the list of its
entries in enumeration order; the `coinSentiments` record is built with
JavaScript object-assignment semantics (assigning to an existing key
replaces its value in place, a new key is appended). -/

namespace TopCoins

open Sentiment

/-- One bar of the chart produced by `processData`. -/
structure ChartEntry where
  coin : String
  percentage : Rat
  count : Nat
  deriving DecidableEq

/-- One step of the comment loop: `totalComments++`, and
`sentimentCount++` when the comment's indicator matches the card's
type.  The accumulator is `(sentimentCount, totalComments)`. -/
def commentStep (sentimentType : String) (a : Nat × Nat) (c : Comment) : Nat × Nat :=
  (if c.indicator == sentimentType then a.1 + 1 else a.1, a.2 + 1)

/-- Assignment to `coinSentiments[coin]`: replace the value of an
existing key in place, otherwise append the new key. -/
def setEntry (acc : List (String × Nat × Nat)) (coin : String) (v : Nat × Nat) :
    List (String × Nat × Nat) :=
  if acc.any (fun e => e.1 == coin) then
    acc.map fun e => if e.1 == coin then (coin, v) else e
  else acc ++ [(coin, v)]

/-- The body of the `Object.entries(data).forEach` pass: for a coin
with a `videos` field, tally its comments and record
`(sentimentCount, totalComments)` when `totalComments > 0`. -/
def coinStep (sentimentType : String) (acc : List (String × Nat × Nat))
    (p : String × SentimentData) : List (String × Nat × Nat) :=
  match p.2.videos with
  | none => acc
  | some videos =>
    let t := videos.foldl (fun a v => v.comments.foldl (commentStep sentimentType) a) (0, 0)
    if 0 < t.2 then setEntry acc p.1 t else acc

/-- The `Object.entries(data).forEach` pass building `coinSentiments`. -/
def coinSentiments (sentimentType : String) (entries : List (String × SentimentData)) :
    List (String × Nat × Nat) :=
  entries.foldl (coinStep sentimentType) []

/-- Coin-name trimming: names longer than 20 characters are cut and
suffixed with an ellipsis. -/
def trimName (coin : String) : String :=
  if 20 < coin.length then String.append (coin.take 20) "..." else coin

/-- `processData`: empty for a null dataset; otherwise map
`coinSentiments` to chart entries with `percentage = (count / total) *
100`, sort by descending percentage and keep the first 10. -/
def processData (sentimentType : String)
    (data : Option (List (String × SentimentData))) : List ChartEntry :=
  match data with
  | none => []
  | some entries =>
    ((((coinSentiments sentimentType entries).map fun e =>
        { coin := trimName e.1
          percentage := (e.2.1 : Rat) / (e.2.2 : Rat) * 100
          count := e.2.1 : ChartEntry }).mergeSort
      fun a b => b.percentage ≤ a.percentage).take 10)

/-- Specification-side view: all comments of one coin's payload. -/
def commentsOf (cd : SentimentData) : List Comment :=
  match cd.videos with
  | none => []
  | some videos => videos.flatMap fun v => v.comments

/-- A concrete dashboard dataset with two coins. -/
def entriesEx : List (String × SentimentData) :=
  [ ("bitcoin", { videos := some [{ comments := [⟨"buy"⟩, ⟨"buy"⟩, ⟨"sell"⟩] }] })
  , ("ethereum", { videos := some [{ comments := [⟨"buy"⟩, ⟨"hold"⟩] }] }) ]

end TopCoins

/-! ## Theorems: the `fetch-binance-whales` edge function -/

namespace Whales

theorem pairLoop_fst (env : Env) (uid : String) :
    ∀ syms : List String, (pairLoop env uid syms).1 = syms.flatMap (pairEvents env uid)
  | [] => rfl
  | sym :: rest => by
    simp only [pairLoop, List.flatMap_cons, pairLoop_fst env uid rest]
    cases h : env.fetchTrades sym <;>
      simp [pairEvents, pairUpserts, h, Function.comp]

theorem pairLoop_snd (env : Env) (uid : String) :
    ∀ syms : List String, (pairLoop env uid syms).2 = syms.flatMap (pairWhales env)
  | [] => rfl
  | sym :: rest => by
    simp only [pairLoop, List.flatMap_cons, pairLoop_snd env uid rest]
    cases h : env.fetchTrades sym <;> simp [pairWhales, h]

/-- With authentication and key lookup succeeding, the event trace is
exactly the per-pair contributions of the first ten USDT trading pairs,
in order. -/
theorem events_eq (env : Env) (uid : String) (hdr : String) (keys : String × String)
    (hh : env.authHeader = some hdr) (hu : env.authUser = some uid)
    (hk : env.apiKeys = some keys) :
    (fetchBinanceWhales env).events
      = ((usdtPairs env.symbols).take 10).flatMap (pairEvents env uid) := by
  simp [fetchBinanceWhales, hh, hu, hk, pairLoop_fst]

/-- With authentication and key lookup succeeding, the response is the
success body listing the whales collected from the processed pairs. -/
theorem response_eq (env : Env) (uid : String) (hdr : String) (keys : String × String)
    (hh : env.authHeader = some hdr) (hu : env.authUser = some uid)
    (hk : env.apiKeys = some keys) :
    (fetchBinanceWhales env).response
      = HttpResult.success (((usdtPairs env.symbols).take 10).flatMap (pairWhales env)) := by
  simp [fetchBinanceWhales, hh, hu, hk, pairLoop_snd]

theorem upsertsOf_append (a b : List Event) :
    upsertsOf (a ++ b) = upsertsOf a ++ upsertsOf b := by
  simp [upsertsOf]

theorem upsertsOf_pairEvents (env : Env) (uid sym : String) :
    upsertsOf (pairEvents env uid sym) = pairUpserts env uid sym := by
  simp [upsertsOf, pairEvents, List.filterMap_map, Function.comp]
  exact List.filterMap_some _

theorem fetchesOf_pairEvents (env : Env) (uid sym : String) :
    fetchesOf (pairEvents env uid sym) = [sym] := by
  simp [fetchesOf, pairEvents, List.filterMap_map, Function.comp]

theorem upsertsOf_flatMap {α : Type} (f : α → List Event) (l : List α) :
    upsertsOf (l.flatMap f) = l.flatMap fun a => upsertsOf (f a) := by
  induction l with
  | nil => rfl
  | cons x xs ih => simp [List.flatMap_cons, upsertsOf_append, ih]

theorem fetchesOf_append (a b : List Event) :
    fetchesOf (a ++ b) = fetchesOf a ++ fetchesOf b := by
  simp [fetchesOf]

theorem fetchesOf_flatMap {α : Type} (f : α → List Event) (l : List α) :
    fetchesOf (l.flatMap f) = l.flatMap fun a => fetchesOf (f a) := by
  induction l with
  | nil => rfl
  | cons x xs ih => simp [List.flatMap_cons, fetchesOf_append, ih]

/-- With authentication and key lookup succeeding, the upserted rows are
the per-pair upsert contributions, in pair order. -/
theorem upsertedRows_eq (env : Env) (uid : String) (hdr : String) (keys : String × String)
    (hh : env.authHeader = some hdr) (hu : env.authUser = some uid)
    (hk : env.apiKeys = some keys) :
    upsertedRows env = ((usdtPairs env.symbols).take 10).flatMap (pairUpserts env uid) := by
  rw [upsertedRows, events_eq env uid hdr keys hh hu hk, upsertsOf_flatMap]
  simp [upsertsOf_pairEvents]

/-- With authentication and key lookup succeeding, the fetch trace is
exactly the first ten USDT trading pairs, in order. -/
theorem fetches_eq (env : Env) (uid : String) (hdr : String) (keys : String × String)
    (hh : env.authHeader = some hdr) (hu : env.authUser = some uid)
    (hk : env.apiKeys = some keys) :
    fetchesOf (fetchBinanceWhales env).events = (usdtPairs env.symbols).take 10 := by
  rw [events_eq env uid hdr keys hh hu hk, fetchesOf_flatMap]
  simp [fetchesOf_pairEvents]

/-- Every row a pair contributes has `amount ≥ WHALE_THRESHOLD`. -/
theorem pairUpserts_amount (env : Env) (uid sym : String) (r : WhaleTradeRow)
    (hr : r ∈ pairUpserts env uid sym) : WHALE_THRESHOLD ≤ r.amount := by
  unfold pairUpserts at hr
  cases h : env.fetchTrades sym <;> rw [h] at hr <;> simp at hr
  obtain ⟨t, ⟨_, hfilt⟩, rfl⟩ := hr
  simpa [whaleFilter, mkWhaleRow] using hfilt

/-- C1: in an authenticated invocation with found API keys, a trade of a
processed pair is upserted into `whale_trades` if and only if its
notional value `price * qty` is at least `WHALE_THRESHOLD = 100000`,
and the stored row has `amount = price * qty`, `price` equal to the
trade's price and `trade_type` `'buy'` exactly when `isBuyerMaker`. -/
theorem whale_upsert_iff (env : Env) (uid hdr : String) (keys : String × String)
    (sym : String) (ts : List BTrade) (t : BTrade)
    (hh : env.authHeader = some hdr) (hu : env.authUser = some uid)
    (hk : env.apiKeys = some keys)
    (hsym : sym ∈ (usdtPairs env.symbols).take 10)
    (hfetch : env.fetchTrades sym = FetchOutcome.ok ts)
    (ht : t ∈ ts) :
    (mkWhaleRow uid sym t ∈ upsertedRows env ↔ WHALE_THRESHOLD ≤ t.price * t.qty)
    ∧ (mkWhaleRow uid sym t).amount = t.price * t.qty
    ∧ (mkWhaleRow uid sym t).price = t.price
    ∧ (mkWhaleRow uid sym t).trade_type = (if t.isBuyerMaker then "buy" else "sell") := by
  refine ⟨⟨fun hmem => ?_, fun hval => ?_⟩, rfl, rfl, rfl⟩
  · rw [upsertedRows_eq env uid hdr keys hh hu hk] at hmem
    obtain ⟨sym2, _, hr⟩ := List.mem_flatMap.mp hmem
    simpa [mkWhaleRow] using pairUpserts_amount env uid sym2 _ hr
  · rw [upsertedRows_eq env uid hdr keys hh hu hk]
    refine List.mem_flatMap.mpr ⟨sym, hsym, ?_⟩
    unfold pairUpserts
    rw [hfetch]
    exact List.mem_map_of_mem _
      (List.mem_filter.mpr ⟨ht, by simpa [whaleFilter] using hval⟩)

/-- C1 witness, at the concrete environment `envEx`. -/
theorem whale_upsert_iff_witness :
    (mkWhaleRow "user-1" "BTCUSDT" tradeA ∈ upsertedRows envEx
        ↔ WHALE_THRESHOLD ≤ tradeA.price * tradeA.qty)
    ∧ (mkWhaleRow "user-1" "BTCUSDT" tradeA).amount = tradeA.price * tradeA.qty
    ∧ (mkWhaleRow "user-1" "BTCUSDT" tradeA).price = tradeA.price
    ∧ (mkWhaleRow "user-1" "BTCUSDT" tradeA).trade_type
        = (if tradeA.isBuyerMaker then "buy" else "sell") :=
  whale_upsert_iff envEx "user-1" "Bearer token" ("key", "secret") "BTCUSDT"
    [tradeA, tradeB] tradeA rfl rfl rfl (by decide) (by decide) (by decide)

/-- C2: an authenticated invocation fetches trades exactly for the
first ten symbols whose `quoteAsset` is `'USDT'` and whose `status` is
`'TRADING'`, in exchange-info order, and the whole event trace is the
concatenation, pair by pair, of that pair's fetch followed by that
pair's upserts — all work for one pair completes before the next pair
is fetched. -/
theorem pairs_sequential (env : Env) (uid hdr : String) (keys : String × String)
    (hh : env.authHeader = some hdr) (hu : env.authUser = some uid)
    (hk : env.apiKeys = some keys) :
    fetchesOf (fetchBinanceWhales env).events
      = (((env.symbols.filter fun s => s.quoteAsset == "USDT" && s.status == "TRADING").map
          fun s => s.symbol).take 10)
    ∧ (fetchBinanceWhales env).events
      = ((usdtPairs env.symbols).take 10).flatMap
          fun sym => Event.fetch sym :: (pairUpserts env uid sym).map Event.upsert := by
  refine ⟨fetches_eq env uid hdr keys hh hu hk, ?_⟩
  rw [events_eq env uid hdr keys hh hu hk]
  rfl

/-- C2 witness, at the concrete environment `envEx`. -/
theorem pairs_sequential_witness :
    fetchesOf (fetchBinanceWhales envEx).events
      = (((envEx.symbols.filter fun s => s.quoteAsset == "USDT" && s.status == "TRADING").map
          fun s => s.symbol).take 10)
    ∧ (fetchBinanceWhales envEx).events
      = ((usdtPairs envEx.symbols).take 10).flatMap
          fun sym => Event.fetch sym :: (pairUpserts envEx "user-1" sym).map Event.upsert :=
  pairs_sequential envEx "user-1" "Bearer token" ("key", "secret") rfl rfl rfl

/-- C3: in an authenticated invocation, a pair whose trade fetch throws
or answers non-ok contributes exactly its fetch event and nothing else —
no upserts, no whales, no retry — while every pair's contribution is
independent of the others (the upsert list and the success response are
pairwise concatenations), and the invocation still returns the success
response listing the whales of the pairs that succeeded. -/
theorem pair_failure_skipped (env : Env) (uid hdr : String) (keys : String × String)
    (sym : String)
    (hh : env.authHeader = some hdr) (hu : env.authUser = some uid)
    (hk : env.apiKeys = some keys)
    (hfail : env.fetchTrades sym = FetchOutcome.thrown
      ∨ ∃ body, env.fetchTrades sym = FetchOutcome.notOk body) :
    pairUpserts env uid sym = []
    ∧ pairWhales env sym = []
    ∧ pairEvents env uid sym = [Event.fetch sym]
    ∧ (fetchBinanceWhales env).response
        = HttpResult.success (((usdtPairs env.symbols).take 10).flatMap (pairWhales env))
    ∧ upsertedRows env = ((usdtPairs env.symbols).take 10).flatMap (pairUpserts env uid)
    ∧ fetchesOf (fetchBinanceWhales env).events = (usdtPairs env.symbols).take 10 := by
  have hu0 : pairUpserts env uid sym = [] := by
    rcases hfail with h | ⟨body, h⟩ <;> simp [pairUpserts, h]
  have hw0 : pairWhales env sym = [] := by
    rcases hfail with h | ⟨body, h⟩ <;> simp [pairWhales, h]
  exact ⟨hu0, hw0, by simp [pairEvents, hu0],
    response_eq env uid hdr keys hh hu hk,
    upsertedRows_eq env uid hdr keys hh hu hk,
    fetches_eq env uid hdr keys hh hu hk⟩

/-- C3 witness, at the concrete environment `envEx` whose `ETHUSDT`
fetch answers non-ok. -/
theorem pair_failure_skipped_witness :
    pairUpserts envEx "user-1" "ETHUSDT" = []
    ∧ pairWhales envEx "ETHUSDT" = []
    ∧ pairEvents envEx "user-1" "ETHUSDT" = [Event.fetch "ETHUSDT"]
    ∧ (fetchBinanceWhales envEx).response
        = HttpResult.success (((usdtPairs envEx.symbols).take 10).flatMap (pairWhales envEx))
    ∧ upsertedRows envEx = ((usdtPairs envEx.symbols).take 10).flatMap (pairUpserts envEx "user-1")
    ∧ fetchesOf (fetchBinanceWhales envEx).events = (usdtPairs envEx.symbols).take 10 :=
  pair_failure_skipped envEx "user-1" "Bearer token" ("key", "secret") "ETHUSDT"
    rfl rfl rfl (Or.inr ⟨"418", by decide⟩)

/-- C4: when the request has no `Authorization` header, or token
authentication fails, or no `api_keys` row exists, the invocation
issues no fetch and no upsert and answers with a status-500 error
response carrying the error message; and every error response the
function can produce, in any environment, has status 500. -/
theorem auth_failure_response (env : Env)
    (hfail : env.authHeader = none ∨ env.authUser = none ∨ env.apiKeys = none) :
    (fetchBinanceWhales env).events = []
    ∧ fetchesOf (fetchBinanceWhales env).events = []
    ∧ upsertedRows env = []
    ∧ (∃ msg, (fetchBinanceWhales env).response = HttpResult.failure 500 msg)
    ∧ (∀ env2 : Env, ∀ s m, (fetchBinanceWhales env2).response = HttpResult.failure s m →
        s = 500) := by
  have hmain : (fetchBinanceWhales env).events = []
      ∧ ∃ msg, (fetchBinanceWhales env).response = HttpResult.failure 500 msg := by
    rcases hfail with h | h | h
    · exact ⟨by simp [fetchBinanceWhales, h], "No authorization header",
        by simp [fetchBinanceWhales, h]⟩
    · cases h1 : env.authHeader with
      | none => exact ⟨by simp [fetchBinanceWhales, h1], "No authorization header",
          by simp [fetchBinanceWhales, h1]⟩
      | some hdr => exact ⟨by simp [fetchBinanceWhales, h1, h], "Unauthorized",
          by simp [fetchBinanceWhales, h1, h]⟩
    · cases h1 : env.authHeader with
      | none => exact ⟨by simp [fetchBinanceWhales, h1], "No authorization header",
          by simp [fetchBinanceWhales, h1]⟩
      | some hdr =>
        cases h2 : env.authUser with
        | none => exact ⟨by simp [fetchBinanceWhales, h1, h2], "Unauthorized",
            by simp [fetchBinanceWhales, h1, h2]⟩
        | some uid => exact ⟨by simp [fetchBinanceWhales, h1, h2, h], "API keys not found",
            by simp [fetchBinanceWhales, h1, h2, h]⟩
  refine ⟨hmain.1, by simp [fetchesOf, hmain.1], by simp [upsertedRows, upsertsOf, hmain.1],
    hmain.2, ?_⟩
  intro env2 s m hresp
  unfold fetchBinanceWhales at hresp
  cases h1 : env2.authHeader <;> rw [h1] at hresp
  · exact ((HttpResult.failure.injEq _ _ _ _).mp hresp.symm).1
  · cases h2 : env2.authUser <;> rw [h2] at hresp
    · exact ((HttpResult.failure.injEq _ _ _ _).mp hresp.symm).1
    · cases h3 : env2.apiKeys <;> rw [h3] at hresp
      · exact ((HttpResult.failure.injEq _ _ _ _).mp hresp.symm).1
      · exact absurd hresp (by simp)

/-- C4 witness, at the concrete environment `envNoAuth`. -/
theorem auth_failure_response_witness :
    (fetchBinanceWhales envNoAuth).events = []
    ∧ fetchesOf (fetchBinanceWhales envNoAuth).events = []
    ∧ upsertedRows envNoAuth = []
    ∧ (∃ msg, (fetchBinanceWhales envNoAuth).response = HttpResult.failure 500 msg)
    ∧ (∀ env2 : Env, ∀ s m, (fetchBinanceWhales env2).response = HttpResult.failure s m →
        s = 500) :=
  auth_failure_response envNoAuth (Or.inl rfl)

theorem pairUpserts_length (env : Env) (uid sym : String) :
    (pairUpserts env uid sym).length = (pairWhales env sym).length := by
  unfold pairUpserts pairWhales
  cases env.fetchTrades sym <;> simp

/-- C7: an authenticated invocation issues exactly one upsert per
qualifying trade occurrence — no deduplication — and the upsert trace
of two back-to-back invocations over identical exchange data contains
every row twice as often as one invocation does. -/
theorem no_deduplication (env : Env) (uid hdr : String) (keys : String × String)
    (hh : env.authHeader = some hdr) (hu : env.authUser = some uid)
    (hk : env.apiKeys = some keys) :
    (upsertedRows env).length = qualifyingTradeCount env
    ∧ ∀ r : WhaleTradeRow, (twoInvocationUpserts env).count r = 2 * (upsertedRows env).count r := by
  constructor
  · rw [upsertedRows_eq env uid hdr keys hh hu hk, qualifyingTradeCount]
    generalize (usdtPairs env.symbols).take 10 = l
    induction l with
    | nil => rfl
    | cons s l ih => simp [List.flatMap_cons, pairUpserts_length, ih]
  · intro r
    simp [twoInvocationUpserts, List.count_append, Nat.two_mul]

/-- C7 witness, at the concrete environment `envEx`. -/
theorem no_deduplication_witness :
    (upsertedRows envEx).length = qualifyingTradeCount envEx
    ∧ ∀ r : WhaleTradeRow,
        (twoInvocationUpserts envEx).count r = 2 * (upsertedRows envEx).count r :=
  no_deduplication envEx "user-1" "Bearer token" ("key", "secret") rfl rfl rfl

end Whales

/-! ## Theorems: `calculateSentiments` -/

namespace Sentiment

theorem tallyStep_foldl (cs : List Comment) (a : Nat × Nat × Nat) :
    cs.foldl tallyStep a
      = (a.1 + cs.countP isBuy, a.2.1 + cs.countP isSell, a.2.2 + cs.countP isOther) := by
  induction cs generalizing a with
  | nil => simp
  | cons c cs ih =>
    rw [List.foldl_cons, ih]
    simp only [tallyStep, List.countP_cons, isBuy, isSell, isOther]
    by_cases hb : c.indicator = "buy" <;> by_cases hs : c.indicator = "sell" <;>
      simp [hb, hs] <;> omega

theorem videos_foldl (videos : List Video) (a : Nat × Nat × Nat) :
    videos.foldl (fun acc v => v.comments.foldl tallyStep acc) a
      = (a.1 + (videos.flatMap fun v => v.comments).countP isBuy,
         a.2.1 + (videos.flatMap fun v => v.comments).countP isSell,
         a.2.2 + (videos.flatMap fun v => v.comments).countP isOther) := by
  induction videos generalizing a with
  | nil => simp
  | cons v vs ih =>
    rw [List.foldl_cons, tallyStep_foldl, ih]
    simp only [List.flatMap_cons, List.countP_append, Prod.mk.injEq]
    omega

theorem calculateSentiments_eq (sd : Option SentimentData) :
    calculateSentiments sd
      = { buy := (allComments sd).countP isBuy
          sell := (allComments sd).countP isSell
          others := (allComments sd).countP isOther
          total := (allComments sd).countP isBuy + (allComments sd).countP isSell
            + (allComments sd).countP isOther } := by
  match sd with
  | none => rfl
  | some d =>
    match hd : d.videos with
    | none => simp [calculateSentiments, allComments, hd]
    | some videos => simp [calculateSentiments, allComments, hd, videos_foldl]

/-- C5: `calculateSentiments` returns `buy`, `sell` and `others` equal
to the number of comments across all videos whose indicator is
`'buy'`, the number whose indicator is `'sell'` and the number of all
remaining comments, with `total = buy + sell + others`; a null dataset
or one without a `videos` field yields all four counts zero. -/
theorem calculateSentiments_correct (sd : Option SentimentData) :
    (calculateSentiments sd).buy = (allComments sd).countP isBuy
    ∧ (calculateSentiments sd).sell = (allComments sd).countP isSell
    ∧ (calculateSentiments sd).others = (allComments sd).countP isOther
    ∧ (calculateSentiments sd).total
        = (calculateSentiments sd).buy + (calculateSentiments sd).sell
          + (calculateSentiments sd).others
    ∧ calculateSentiments none = { buy := 0, sell := 0, others := 0, total := 0 }
    ∧ (∀ d : SentimentData, d.videos = none →
        calculateSentiments (some d) = { buy := 0, sell := 0, others := 0, total := 0 }) := by
  refine ⟨?_, ?_, ?_, ?_, rfl, fun d hd => by simp [calculateSentiments, hd]⟩ <;>
    rw [calculateSentiments_eq sd]

/-- C5 witness, at the concrete dataset `sentimentEx`. -/
theorem calculateSentiments_correct_witness :
    (calculateSentiments (some sentimentEx)).buy
        = (allComments (some sentimentEx)).countP isBuy
    ∧ (calculateSentiments (some sentimentEx)).sell
        = (allComments (some sentimentEx)).countP isSell
    ∧ (calculateSentiments (some sentimentEx)).others
        = (allComments (some sentimentEx)).countP isOther
    ∧ (calculateSentiments (some sentimentEx)).total
        = (calculateSentiments (some sentimentEx)).buy
          + (calculateSentiments (some sentimentEx)).sell
          + (calculateSentiments (some sentimentEx)).others
    ∧ calculateSentiments none = { buy := 0, sell := 0, others := 0, total := 0 }
    ∧ (∀ d : SentimentData, d.videos = none →
        calculateSentiments (some d) = { buy := 0, sell := 0, others := 0, total := 0 }) :=
  calculateSentiments_correct (some sentimentEx)

end Sentiment

/-! ## Theorems: `TradingSuggestions` -/

namespace Trading

/-- C6: for a signed-in user, creating a trade view with a name the
user already has stops with the duplicate-name error and inserts
nothing; otherwise exactly one row with that name, the user's id and
status `'active'` is inserted. -/
theorem createTradeView_spec (session : Option String) (uid : String)
    (db : List TradeViewRow) (name : String) (hs : session = some uid) :
    ((∃ r ∈ db, r.user_id = uid ∧ r.name = name) →
      handleCreateTradeView session db name = (db, CreateViewOutcome.duplicateName))
    ∧ ((¬ ∃ r ∈ db, r.user_id = uid ∧ r.name = name) →
      handleCreateTradeView session db name
        = (db ++ [{ user_id := uid, name := name, status := "active" }],
           CreateViewOutcome.created { user_id := uid, name := name, status := "active" })) := by
  subst hs
  constructor
  · rintro ⟨r, hr, hu, hn⟩
    have hfind : (db.find? fun r => r.user_id == uid && r.name == name).isSome := by
      rw [List.find?_isSome]
      exact ⟨r, hr, by simp [hu, hn]⟩
    obtain ⟨r2, hr2⟩ := Option.isSome_iff_exists.mp hfind
    simp [handleCreateTradeView, hr2]
  · intro hno
    have hfind : db.find? (fun r => r.user_id == uid && r.name == name) = none := by
      rw [List.find?_eq_none]
      intro r hr
      simp only [Bool.and_eq_true, beq_iff_eq, not_and]
      intro hu hn
      exact absurd ⟨r, hr, hu, hn⟩ hno
    simp [handleCreateTradeView, hfind]

/-- C6 witness, at the concrete table `dbEx` (which already holds a row
named `march` for `user-1`): the duplicate branch at `march` and the
insert branch at `april`. -/
theorem createTradeView_spec_witness :
    (((∃ r ∈ dbEx, r.user_id = "user-1" ∧ r.name = "march") →
      handleCreateTradeView (some "user-1") dbEx "march"
        = (dbEx, CreateViewOutcome.duplicateName))
    ∧ ((¬ ∃ r ∈ dbEx, r.user_id = "user-1" ∧ r.name = "march") →
      handleCreateTradeView (some "user-1") dbEx "march"
        = (dbEx ++ [{ user_id := "user-1", name := "march", status := "active" }],
           CreateViewOutcome.created { user_id := "user-1", name := "march", status := "active" })))
    ∧ handleCreateTradeView (some "user-1") dbEx "march" = (dbEx, CreateViewOutcome.duplicateName) := by
  have h := createTradeView_spec (some "user-1") "user-1" dbEx "march" rfl
  exact ⟨h, h.1 ⟨{ user_id := "user-1", name := "march", status := "active" },
    by simp [dbEx], rfl, rfl⟩⟩

theorem handleNext_coins (s : SuggestionsState) : (handleNext s).coins = s.coins := by
  unfold handleNext
  cases s.tradeViewId <;> cases currentCoin s <;>
    first
    | rfl
    | (dsimp only; split <;> rfl)

theorem handleNext_index_le (s : SuggestionsState) (h : s.currentIndex < s.coins.length) :
    (handleNext s).currentIndex < s.coins.length := by
  unfold handleNext
  cases s.tradeViewId <;> cases currentCoin s <;> dsimp only <;>
    first
    | exact h
    | (split <;> dsimp only <;> omega)

theorem handleBuy_coins (s : SuggestionsState) : (handleBuy s).coins = s.coins := by
  unfold handleBuy
  cases h1 : s.tradeViewId <;> cases h2 : currentCoin s <;>
    first
    | rfl
    | exact handleNext_coins _

theorem handleBuy_index_le (s : SuggestionsState) (h : s.currentIndex < s.coins.length) :
    (handleBuy s).currentIndex < s.coins.length := by
  unfold handleBuy
  cases h1 : s.tradeViewId <;> cases h2 : currentCoin s <;>
    first
    | exact h
    | exact handleNext_index_le _ h

theorem runActions_invariant (acts : List UserAction) (s : SuggestionsState)
    (h : s.currentIndex < s.coins.length) :
    (runActions s acts).coins = s.coins
    ∧ (runActions s acts).currentIndex < s.coins.length := by
  induction acts generalizing s with
  | nil => exact ⟨rfl, h⟩
  | cons a acts ih =>
    have hstep : (actionStep s a).coins = s.coins
        ∧ (actionStep s a).currentIndex < s.coins.length := by
      cases a with
      | next => exact ⟨handleNext_coins s, handleNext_index_le s h⟩
      | buy => exact ⟨handleBuy_coins s, handleBuy_index_le s h⟩
    have ih2 := ih (actionStep s a) (hstep.1 ▸ hstep.2)
    exact ⟨by rw [runActions, List.foldl_cons, ← runActions, ih2.1, hstep.1],
      by rw [runActions, List.foldl_cons, ← runActions]; rw [hstep.1] at ih2; exact ih2.2⟩

theorem handleNext_index_eq (s : SuggestionsState) :
    (handleNext s).currentIndex
      = if s.tradeViewId.isSome ∧ (currentCoin s).isSome
            ∧ s.currentIndex < s.coins.length - 1
        then s.currentIndex + 1 else s.currentIndex := by
  unfold handleNext
  cases h1 : s.tradeViewId <;> cases h2 : currentCoin s <;> simp [h1, h2]
  split <;> simp

theorem handleNext_completion (s : SuggestionsState) (h1 : s.tradeViewId.isSome)
    (h2 : (currentCoin s).isSome) (h3 : ¬ s.currentIndex < s.coins.length - 1) :
    (handleNext s).currentIndex = s.currentIndex
    ∧ (handleNext s).completionNotices = s.completionNotices + 1 := by
  obtain ⟨id, hid⟩ := Option.isSome_iff_exists.mp h1
  obtain ⟨coin, hcoin⟩ := Option.isSome_iff_exists.mp h2
  unfold handleNext
  rw [hid, hcoin]
  simp [h3]

/-- C8: once analysis has started on a non-empty coin list, any
sequence of `handleNext` and `handleBuy` calls keeps `currentIndex`
within `[0, coins.length - 1]` and the current coin defined;
`handleNext` increments the index exactly when
`currentIndex < coins.length - 1` and otherwise leaves it unchanged,
showing the completion notice instead. -/
theorem suggestions_index_invariant (s0 : SuggestionsState) (acts : List UserAction)
    (_hid : s0.tradeViewId.isSome) (hidx : s0.currentIndex = 0) (hne : s0.coins ≠ []) :
    (runActions s0 acts).coins = s0.coins
    ∧ (runActions s0 acts).currentIndex ≤ s0.coins.length - 1
    ∧ (currentCoin (runActions s0 acts)).isSome
    ∧ (∀ s : SuggestionsState,
        (handleNext s).currentIndex
          = if s.tradeViewId.isSome ∧ (currentCoin s).isSome
                ∧ s.currentIndex < s.coins.length - 1
            then s.currentIndex + 1 else s.currentIndex)
    ∧ (∀ s : SuggestionsState, s.tradeViewId.isSome → (currentCoin s).isSome →
        ¬ s.currentIndex < s.coins.length - 1 →
        (handleNext s).currentIndex = s.currentIndex
        ∧ (handleNext s).completionNotices = s.completionNotices + 1) := by
  have hlen : 0 < s0.coins.length := List.length_pos.mpr hne
  have h0 : s0.currentIndex < s0.coins.length := by omega
  obtain ⟨hcoins, hlt⟩ := runActions_invariant acts s0 h0
  refine ⟨hcoins, by omega, ?_, handleNext_index_eq, handleNext_completion⟩
  have hlt2 : (runActions s0 acts).currentIndex < (runActions s0 acts).coins.length := by
    rw [hcoins]; exact hlt
  rw [currentCoin, List.getElem?_eq_getElem hlt2]
  rfl

/-- C8 witness, at the concrete state `stateEx` and a concrete action
sequence. -/
theorem suggestions_index_invariant_witness :
    (runActions stateEx [UserAction.next, UserAction.buy]).coins = stateEx.coins
    ∧ (runActions stateEx [UserAction.next, UserAction.buy]).currentIndex
        ≤ stateEx.coins.length - 1
    ∧ (currentCoin (runActions stateEx [UserAction.next, UserAction.buy])).isSome
    ∧ (∀ s : SuggestionsState,
        (handleNext s).currentIndex
          = if s.tradeViewId.isSome ∧ (currentCoin s).isSome
                ∧ s.currentIndex < s.coins.length - 1
            then s.currentIndex + 1 else s.currentIndex)
    ∧ (∀ s : SuggestionsState, s.tradeViewId.isSome → (currentCoin s).isSome →
        ¬ s.currentIndex < s.coins.length - 1 →
        (handleNext s).currentIndex = s.currentIndex
        ∧ (handleNext s).completionNotices = s.completionNotices + 1) :=
  suggestions_index_invariant stateEx [UserAction.next, UserAction.buy]
    (by decide) rfl (by decide)

theorem handleNext_insertedRows (s : SuggestionsState) (id : Nat) (coin : Coin)
    (hid : s.tradeViewId = some id) (hcoin : currentCoin s = some coin) :
    (handleNext s).insertedRows = s.insertedRows ++ [indicatorRow id coin none] := by
  unfold handleNext
  rw [hid, hcoin]
  dsimp only
  split <;> rfl

theorem handleNext_index_formula (s : SuggestionsState) (id : Nat) (coin : Coin)
    (hid : s.tradeViewId = some id) (hcoin : currentCoin s = some coin) :
    (handleNext s).currentIndex
      = if s.currentIndex < s.coins.length - 1 then s.currentIndex + 1
        else s.currentIndex := by
  unfold handleNext
  rw [hid, hcoin]
  dsimp only
  split <;> rfl

/-- C9: with a trade view and a current coin, `handleBuy` inserts a
`coin_indicators` row with `user_response 'buy'` and then — via
`handleNext` — a second row for the same coin without `user_response`
before advancing the index exactly as a plain `handleNext` would; a
plain `handleNext` inserts exactly one row without `user_response`. -/
theorem buy_inserts_two_rows (s : SuggestionsState) (id : Nat) (coin : Coin)
    (hid : s.tradeViewId = some id) (hcoin : currentCoin s = some coin) :
    (handleBuy s).insertedRows
      = s.insertedRows ++ [indicatorRow id coin (some "buy"), indicatorRow id coin none]
    ∧ (handleNext s).insertedRows = s.insertedRows ++ [indicatorRow id coin none]
    ∧ (indicatorRow id coin (some "buy")).user_response = some "buy"
    ∧ (indicatorRow id coin none).user_response = none
    ∧ (indicatorRow id coin (some "buy")).coin_symbol = coin.symbol
    ∧ (indicatorRow id coin none).coin_symbol = coin.symbol
    ∧ (handleBuy s).currentIndex = (handleNext s).currentIndex := by
  have hcoin2 : currentCoin { s with
      insertedRows := s.insertedRows ++ [indicatorRow id coin (some "buy")] } = some coin := hcoin
  have hid2 : ({ s with insertedRows := s.insertedRows ++ [indicatorRow id coin (some "buy")] }
      : SuggestionsState).tradeViewId = some id := hid
  have hbuy : handleBuy s
      = handleNext { s with
          insertedRows := s.insertedRows ++ [indicatorRow id coin (some "buy")] } := by
    unfold handleBuy
    rw [hid, hcoin]
  refine ⟨?_, handleNext_insertedRows s id coin hid hcoin, rfl, rfl, rfl, rfl, ?_⟩
  · rw [hbuy, handleNext_insertedRows _ id coin hid2 hcoin2]
    simp
  · rw [hbuy, handleNext_index_formula _ id coin hid2 hcoin2,
      handleNext_index_formula s id coin hid hcoin]

/-- C9 witness, at the concrete state `stateEx`. -/
theorem buy_inserts_two_rows_witness :
    (handleBuy stateEx).insertedRows
      = stateEx.insertedRows
        ++ [indicatorRow 7 { symbol := "BTCUSDT", strategy := "bullish", indicators := "rsi:55" }
              (some "buy"),
            indicatorRow 7 { symbol := "BTCUSDT", strategy := "bullish", indicators := "rsi:55" }
              none]
    ∧ (handleNext stateEx).insertedRows
      = stateEx.insertedRows
        ++ [indicatorRow 7 { symbol := "BTCUSDT", strategy := "bullish", indicators := "rsi:55" }
              none]
    ∧ (indicatorRow 7 { symbol := "BTCUSDT", strategy := "bullish", indicators := "rsi:55" }
        (some "buy")).user_response = some "buy"
    ∧ (indicatorRow 7 { symbol := "BTCUSDT", strategy := "bullish", indicators := "rsi:55" }
        none).user_response = none
    ∧ (indicatorRow 7 { symbol := "BTCUSDT", strategy := "bullish", indicators := "rsi:55" }
        (some "buy")).coin_symbol
      = ({ symbol := "BTCUSDT", strategy := "bullish", indicators := "rsi:55" } : Coin).symbol
    ∧ (indicatorRow 7 { symbol := "BTCUSDT", strategy := "bullish", indicators := "rsi:55" }
        none).coin_symbol
      = ({ symbol := "BTCUSDT", strategy := "bullish", indicators := "rsi:55" } : Coin).symbol
    ∧ (handleBuy stateEx).currentIndex = (handleNext stateEx).currentIndex :=
  buy_inserts_two_rows stateEx 7
    { symbol := "BTCUSDT", strategy := "bullish", indicators := "rsi:55" } rfl (by decide)

end Trading

/-! ## Theorems: `TopCoinsCard.processData` -/

namespace TopCoins

open Sentiment

theorem commentStep_foldl (sentimentType : String) (cs : List Comment) (a : Nat × Nat) :
    cs.foldl (commentStep sentimentType) a
      = (a.1 + cs.countP (fun c => c.indicator == sentimentType), a.2 + cs.length) := by
  induction cs generalizing a with
  | nil => simp
  | cons c cs ih =>
    rw [List.foldl_cons, ih]
    simp only [commentStep, List.countP_cons, List.length_cons, Prod.mk.injEq]
    by_cases h : c.indicator == sentimentType <;> simp [h] <;> omega

theorem videoFold_eq (sentimentType : String) (videos : List Video) (a : Nat × Nat) :
    videos.foldl (fun acc v => v.comments.foldl (commentStep sentimentType) acc) a
      = (a.1 + (videos.flatMap fun v => v.comments).countP
            (fun c => c.indicator == sentimentType),
         a.2 + (videos.flatMap fun v => v.comments).length) := by
  induction videos generalizing a with
  | nil => simp
  | cons v vs ih =>
    rw [List.foldl_cons, commentStep_foldl, ih]
    simp only [List.flatMap_cons, List.countP_append, List.length_append, Prod.mk.injEq]
    omega

theorem mem_setEntry {acc : List (String × Nat × Nat)} {coin : String} {v : Nat × Nat}
    {x : String × Nat × Nat} (h : x ∈ setEntry acc coin v) : x = (coin, v) ∨ x ∈ acc := by
  unfold setEntry at h
  split at h
  · obtain ⟨e, he, hx⟩ := List.mem_map.mp h
    by_cases hk : e.1 == coin
    · rw [if_pos hk] at hx
      exact Or.inl hx.symm
    · rw [if_neg hk] at hx
      exact Or.inr (hx ▸ he)
  · rcases List.mem_append.mp h with h | h
    · exact Or.inr h
    · exact Or.inl (by simpa using h)

theorem mem_coinStep {sentimentType : String} {acc : List (String × Nat × Nat)}
    {p : String × SentimentData} {x : String × Nat × Nat}
    (h : x ∈ coinStep sentimentType acc p) :
    x ∈ acc
    ∨ (x = (p.1, ((commentsOf p.2).countP fun c => c.indicator == sentimentType,
          (commentsOf p.2).length))
        ∧ 0 < (commentsOf p.2).length) := by
  unfold coinStep at h
  cases hv : p.2.videos with
  | none => rw [hv] at h; exact Or.inl h
  | some videos =>
    rw [hv] at h
    simp only [videoFold_eq, Nat.zero_add] at h
    by_cases ht : 0 < (videos.flatMap fun v => v.comments).length
    · rw [if_pos ht] at h
      rcases mem_setEntry h with h | h
      · exact Or.inr ⟨by rw [h]; simp [commentsOf, hv],
          by simpa [commentsOf, hv] using ht⟩
      · exact Or.inl h
    · rw [if_neg ht] at h
      exact Or.inl h

theorem coinSentiments_mem (sentimentType : String)
    (entries : List (String × SentimentData)) :
    ∀ x ∈ coinSentiments sentimentType entries,
      ∃ p ∈ entries,
        x.1 = p.1
        ∧ x.2.1 = (commentsOf p.2).countP (fun c => c.indicator == sentimentType)
        ∧ x.2.2 = (commentsOf p.2).length
        ∧ 0 < (commentsOf p.2).length := by
  have aux : ∀ (l : List (String × SentimentData)) (acc : List (String × Nat × Nat)),
      ∀ x ∈ l.foldl (coinStep sentimentType) acc,
        x ∈ acc
        ∨ ∃ p ∈ l,
            x.1 = p.1
            ∧ x.2.1 = (commentsOf p.2).countP (fun c => c.indicator == sentimentType)
            ∧ x.2.2 = (commentsOf p.2).length
            ∧ 0 < (commentsOf p.2).length := by
    intro l
    induction l with
    | nil => exact fun acc x hx => Or.inl hx
    | cons p l ih =>
      intro acc x hx
      rw [List.foldl_cons] at hx
      rcases ih _ x hx with h | ⟨q, hq, hprop⟩
      · rcases mem_coinStep h with h | ⟨hx1, hx2⟩
        · exact Or.inl h
        · exact Or.inr ⟨p, List.mem_cons_self p l, by rw [hx1], by rw [hx1], by rw [hx1], hx2⟩
      · exact Or.inr ⟨q, List.mem_cons_of_mem _ hq, hprop⟩
  intro x hx
  rcases aux entries [] x hx with h | h
  · simp at h
  · exact h

/-- C10: `processData` returns at most 10 entries, sorted by
non-increasing percentage, including only coins with at least one
comment; each entry's percentage is `100 * (matching / total)` for its
coin and lies in `[0, 100]`; a null dataset gives no entries. -/
theorem processData_spec (sentimentType : String)
    (entries : List (String × SentimentData)) :
    processData sentimentType none = []
    ∧ (processData sentimentType (some entries)).length ≤ 10
    ∧ (processData sentimentType (some entries)).Pairwise
        (fun a b => b.percentage ≤ a.percentage)
    ∧ ∀ e ∈ processData sentimentType (some entries),
        (0 ≤ e.percentage ∧ e.percentage ≤ 100)
        ∧ ∃ p ∈ entries,
            0 < (commentsOf p.2).length
            ∧ e.count = (commentsOf p.2).countP (fun c => c.indicator == sentimentType)
            ∧ e.percentage
              = ((commentsOf p.2).countP (fun c => c.indicator == sentimentType) : Rat)
                / ((commentsOf p.2).length : Rat) * 100
            ∧ e.coin = trimName p.1 := by
  refine ⟨rfl, ?_, ?_, ?_⟩
  · exact List.length_take_le 10 _
  · have hsorted := @List.sorted_mergeSort ChartEntry
      (fun a b => decide (b.percentage ≤ a.percentage))
      (fun a b c hab hbc => by
        simp only [decide_eq_true_eq] at *
        exact le_trans hbc hab)
      (fun a b => by
        simp only [Bool.or_eq_true, decide_eq_true_eq]
        exact le_total b.percentage a.percentage)
      ((coinSentiments sentimentType entries).map fun e =>
        ({ coin := trimName e.1
           percentage := (e.2.1 : Rat) / (e.2.2 : Rat) * 100
           count := e.2.1 } : ChartEntry))
    have hsub := List.Pairwise.sublist (List.take_sublist 10 _) hsorted
    exact hsub.imp fun hab => by simpa using hab
  · intro e he
    have he2 : e ∈ ((coinSentiments sentimentType entries).map fun x =>
        ({ coin := trimName x.1
           percentage := (x.2.1 : Rat) / (x.2.2 : Rat) * 100
           count := x.2.1 } : ChartEntry)) := by
      have := List.mem_of_mem_take he
      rwa [List.mem_mergeSort] at this
    obtain ⟨x, hx, rfl⟩ := List.mem_map.mp he2
    obtain ⟨p, hp, hx1, hx21, hx22, hpos⟩ := coinSentiments_mem sentimentType entries x hx
    have hcle : x.2.1 ≤ x.2.2 := by
      rw [hx21, hx22]; exact List.countP_le_length _
    have htpos : (0 : Rat) < (x.2.2 : Rat) := by
      rw [hx22]; exact_mod_cast hpos
    constructor
    · constructor
      · positivity
      · have hdiv : (x.2.1 : Rat) / (x.2.2 : Rat) ≤ 1 :=
          (div_le_one htpos).mpr (by exact_mod_cast hcle)
        calc (x.2.1 : Rat) / (x.2.2 : Rat) * 100 ≤ 1 * 100 :=
              mul_le_mul_of_nonneg_right hdiv (by norm_num)
          _ = 100 := by norm_num
    · exact ⟨p, hp, hpos, hx21, by rw [hx21, hx22], by rw [hx1]⟩

/-- C10 witness, at the concrete dataset `entriesEx`. -/
theorem processData_spec_witness :
    processData "buy" none = []
    ∧ (processData "buy" (some entriesEx)).length ≤ 10
    ∧ (processData "buy" (some entriesEx)).Pairwise
        (fun a b => b.percentage ≤ a.percentage)
    ∧ ∀ e ∈ processData "buy" (some entriesEx),
        (0 ≤ e.percentage ∧ e.percentage ≤ 100)
        ∧ ∃ p ∈ entriesEx,
            0 < (commentsOf p.2).length
            ∧ e.count = (commentsOf p.2).countP (fun c => c.indicator == "buy")
            ∧ e.percentage
              = ((commentsOf p.2).countP (fun c => c.indicator == "buy") : Rat)
                / ((commentsOf p.2).length : Rat) * 100
            ∧ e.coin = trimName p.1 :=
  processData_spec "buy" entriesEx

end TopCoins

end TrendSentinel
